import Mathlib

/-!
Verification of the job-search automation core against its implementation.

The JavaScript sources are embedded shallowly:

* `CredentialManager.encrypt` / `decrypt` / `storeCredentials` / `getCredentials`
  (src/backend/services/CredentialManager.js): byte strings are `List Nat`
  (each element a byte value `< 256`), the AES-256-CBC block cipher keyed by
  the vault key is an abstract pair of block maps `(E, D)` with the inverse
  property on 16-byte blocks, PKCS#7 padding, CBC chaining, hex encoding and
  the `iv:ciphertext` wire format are modelled explicitly.
* `removeDuplicateJobs` / `filterJobsByRecency`
  (src/backend/tests/automation_test.js): direct list translations.
* `detectApplicationSystem` (AutomatedJobApplicant) and `determinePortal`
  (auto-apply routes): URL strings are `List Char`, JS `String.includes`
  is `includesList`.
* `applyToJob` (AutomatedJobApplicant): the selected portal adapter is a
  parameter producing either a result or a thrown exception; the browser and
  the remote page are outside the model.
* `processBatchApplications`, the `POST /batch` handler, `saveBatchStatus`,
  `getBatchStatus` (auto-apply routes): the job store, the credential store
  and the adapter outcomes are parameters of an environment record; the
  in-memory batch store is an association list.
-/

/-! ### Byte strings -/

/-- Every element of the list is a byte value. -/
def bytesValid (l : List Nat) : Prop := ∀ b ∈ l, b < 256

instance : DecidablePred bytesValid := fun l =>
  inferInstanceAs (Decidable (∀ b ∈ l, b < 256))

/-- ASCII code of the colon character, the `iv:ciphertext` separator. -/
def colonByte : Nat := 58

/-! ### Hex encoding (Buffer.toString of node, lowercase digits) -/

/-- ASCII code of the hex digit for a value `n < 16`. -/
def hexDigitChar (n : Nat) : Nat := if n < 10 then 48 + n else 87 + n

/-- Hex-encode a byte string, two digits per byte, as node's
Buffer.toString with encoding hex does. -/
def hexEncode : List Nat → List Nat
  | [] => []
  | b :: t => hexDigitChar (b / 16) :: hexDigitChar (b % 16) :: hexEncode t

/-- Value of a hex digit character, `none` when the character is not a
lowercase hex digit. -/
def hexDigitVal (c : Nat) : Option Nat :=
  if 48 ≤ c ∧ c ≤ 57 then some (c - 48)
  else if 97 ≤ c ∧ c ≤ 102 then some (c - 87)
  else none

/-- Decode a hex string back to bytes, as node's Buffer.from with encoding
hex does on well-formed input. -/
def hexDecode : List Nat → Option (List Nat)
  | [] => some []
  | [_] => none
  | c1 :: c2 :: t =>
    match hexDigitVal c1, hexDigitVal c2, hexDecode t with
    | some d1, some d2, some r => some ((16 * d1 + d2) :: r)
    | _, _, _ => none

theorem hexDigitVal_hexDigitChar {n : Nat} (h : n < 16) :
    hexDigitVal (hexDigitChar n) = some n := by
  interval_cases n <;> rfl

theorem hexDecode_hexEncode {l : List Nat} (h : bytesValid l) :
    hexDecode (hexEncode l) = some l := by
  induction l with
  | nil => rfl
  | cons b t ih =>
    have hb : b < 256 := h b (by simp)
    have ht : bytesValid t := fun x hx => h x (by simp [hx])
    have h1 : b / 16 < 16 := by omega
    have h2 : b % 16 < 16 := by omega
    simp only [hexEncode, hexDecode, hexDigitVal_hexDigitChar h1,
      hexDigitVal_hexDigitChar h2, ih ht]
    rw [Nat.div_add_mod]

theorem hexDigitChar_ne_colon (n : Nat) : hexDigitChar n ≠ colonByte := by
  unfold hexDigitChar colonByte
  split <;> omega

theorem hexEncode_no_colon (l : List Nat) : ∀ c ∈ hexEncode l, c ≠ colonByte := by
  induction l with
  | nil => simp [hexEncode]
  | cons b t ih =>
    intro c hc
    simp only [hexEncode, List.mem_cons] at hc
    rcases hc with rfl | rfl | hc
    · exact hexDigitChar_ne_colon _
    · exact hexDigitChar_ne_colon _
    · exact ih c hc

theorem hexEncode_bytesValid {l : List Nat} (h : bytesValid l) :
    bytesValid (hexEncode l) := by
  induction l with
  | nil => intro b hb; simp [hexEncode] at hb
  | cons b t ih =>
    have hb : b < 256 := h b (by simp)
    have ht : bytesValid t := fun x hx => h x (by simp [hx])
    intro c hc
    simp only [hexEncode, List.mem_cons] at hc
    have hdiv : b / 16 < 16 := by omega
    have hmod : b % 16 < 16 := by omega
    rcases hc with rfl | rfl | hc
    · unfold hexDigitChar; split <;> omega
    · unfold hexDigitChar; split <;> omega
    · exact ih ht c hc

/-! ### Splitting on the colon separator (JS String.split) -/

/-- Split a byte string on the colon separator, as the JS expression
encryptedData.split on the colon does: each colon ends the current piece
and starts a new one. -/
def splitOnColon : List Nat → List (List Nat)
  | [] => [[]]
  | c :: t =>
    if c = colonByte then [] :: splitOnColon t
    else (c :: (splitOnColon t).headD []) :: (splitOnColon t).tail

theorem splitOnColon_ne_nil (l : List Nat) : splitOnColon l ≠ [] := by
  cases l with
  | nil => simp [splitOnColon]
  | cons c t =>
    simp only [splitOnColon]
    split <;> simp

theorem splitOnColon_no_colon {l : List Nat} (h : ∀ c ∈ l, c ≠ colonByte) :
    splitOnColon l = [l] := by
  induction l with
  | nil => rfl
  | cons c t ih =>
    have hc : c ≠ colonByte := h c (by simp)
    have ht : ∀ x ∈ t, x ≠ colonByte := fun x hx => h x (by simp [hx])
    simp only [splitOnColon]
    rw [if_neg hc, ih ht]
    rfl

theorem splitOnColon_append {l1 l2 : List Nat} (h : ∀ c ∈ l1, c ≠ colonByte) :
    splitOnColon (l1 ++ colonByte :: l2) = l1 :: splitOnColon l2 := by
  induction l1 with
  | nil => simp [splitOnColon]
  | cons c t ih =>
    have hc : c ≠ colonByte := h c (by simp)
    have ht : ∀ x ∈ t, x ≠ colonByte := fun x hx => h x (by simp [hx])
    simp only [List.cons_append, splitOnColon, List.append_eq]
    rw [if_neg hc, ih ht]
    rfl

/-! ### PKCS#7 padding (applied implicitly by node's cipher.update/final) -/

/-- PKCS#7-pad a byte string to a multiple of the 16-byte block size. -/
def pad16 (l : List Nat) : List Nat :=
  l ++ List.replicate (16 - l.length % 16) (16 - l.length % 16)

/-- Remove PKCS#7 padding; `none` models the padding-check failure thrown by
decipher.final. -/
def unpad16 (l : List Nat) : Option (List Nat) :=
  (l.getLast?).bind fun k =>
    if 1 ≤ k ∧ k ≤ 16 ∧ k ≤ l.length ∧ (l.drop (l.length - k)).all (· = k)
    then some (l.take (l.length - k))
    else none

theorem getLast?_replicate_of_pos {α : Type} {n : Nat} (a : α) (h : 1 ≤ n) :
    (List.replicate n a).getLast? = some a := by
  cases n with
  | zero => omega
  | succ m =>
    rw [List.replicate_succ', List.getLast?_append_of_ne_nil _ (by simp)]
    rfl

theorem unpad16_append_replicate (l : List Nat) (k : Nat)
    (hk1 : 1 ≤ k) (hk16 : k ≤ 16) :
    unpad16 (l ++ List.replicate k k) = some l := by
  have hrep : (List.replicate k k) ≠ [] := by
    intro h
    have := congrArg List.length h
    simp at this
    omega
  have hlen : (l ++ List.replicate k k).length = l.length + k := by simp
  have hlast : (l ++ List.replicate k k).getLast? = some k := by
    rw [List.getLast?_append_of_ne_nil _ hrep, getLast?_replicate_of_pos _ hk1]
  have hsub : l.length + k - k = l.length := by omega
  have hdrop : (l ++ List.replicate k k).drop ((l ++ List.replicate k k).length - k)
      = List.replicate k k := by
    rw [hlen, hsub]
    have := List.drop_left l (List.replicate k k)
    exact this
  have htake : (l ++ List.replicate k k).take ((l ++ List.replicate k k).length - k)
      = l := by
    rw [hlen, hsub]
    exact List.take_left l (List.replicate k k)
  unfold unpad16
  simp only [hlast, Option.some_bind]
  rw [if_pos]
  · rw [htake]
  · refine ⟨hk1, hk16, ?_, ?_⟩
    · rw [hlen]; omega
    · rw [hdrop]
      simp [List.all_eq_true, List.mem_replicate]

theorem unpad16_pad16 (l : List Nat) : unpad16 (pad16 l) = some l := by
  unfold pad16
  exact unpad16_append_replicate l _ (by omega) (by omega)

theorem pad16_length_dvd (l : List Nat) : 16 ∣ (pad16 l).length := by
  simp only [pad16, List.length_append, List.length_replicate]
  omega

theorem pad16_bytesValid {l : List Nat} (h : bytesValid l) :
    bytesValid (pad16 l) := by
  intro b hb
  simp only [pad16, List.mem_append, List.mem_replicate] at hb
  rcases hb with hb | ⟨_, rfl⟩
  · exact h b hb
  · omega

theorem pad16_ne_nil (l : List Nat) : pad16 l ≠ [] := by
  intro hEq
  have hlen := congrArg List.length hEq
  simp [pad16] at hlen
  omega

/-! ### 16-byte blocks and CBC chaining -/

/-- A 16-byte block of byte values. -/
def blockValid (b : List Nat) : Prop := b.length = 16 ∧ bytesValid b

/-- Cut a byte string into 16-byte blocks. -/
def toBlocks (l : List Nat) : List (List Nat) :=
  if l = [] then [] else l.take 16 :: toBlocks (l.drop 16)
termination_by l.length
decreasing_by
  simp only [List.length_drop]
  have : l.length ≠ 0 := by
    intro h
    exact (by assumption : ¬ l = []) (List.length_eq_zero.mp h)
  omega

/-- Concatenate blocks back into a byte string. -/
def joinBlocks (bs : List (List Nat)) : List Nat := bs.flatten

theorem joinBlocks_toBlocks (l : List Nat) : joinBlocks (toBlocks l) = l := by
  rw [toBlocks]
  split
  · next h => simp [joinBlocks, h]
  · rw [joinBlocks, List.flatten_cons, ← joinBlocks]
    rw [joinBlocks_toBlocks (l.drop 16)]
    exact List.take_append_drop 16 l
termination_by l.length
decreasing_by
  simp only [List.length_drop]
  have : l.length ≠ 0 := by
    intro h
    exact (by assumption : ¬ l = []) (List.length_eq_zero.mp h)
  omega

theorem toBlocks_join {bs : List (List Nat)} (h : ∀ b ∈ bs, b.length = 16) :
    toBlocks (joinBlocks bs) = bs := by
  induction bs with
  | nil => rw [toBlocks]; simp [joinBlocks]
  | cons b t ih =>
    have hb : b.length = 16 := h b (by simp)
    have ht : ∀ x ∈ t, x.length = 16 := fun x hx => h x (by simp [hx])
    simp only [joinBlocks] at ih ⊢
    have hne : b ++ t.flatten ≠ [] := by
      intro hEq
      have := congrArg List.length hEq
      simp [hb] at this
    rw [List.flatten_cons, toBlocks, if_neg hne]
    rw [← hb, List.take_left, List.drop_left, ih ht]

theorem toBlocks_length {l : List Nat} (h : 16 ∣ l.length) :
    ∀ b ∈ toBlocks l, b.length = 16 := by
  rw [toBlocks]
  split
  · simp
  · intro b hb
    have hlen : l.length ≠ 0 := by
      intro h0
      exact (by assumption : ¬ l = []) (List.length_eq_zero.mp h0)
    have h16 : 16 ≤ l.length := Nat.le_of_dvd (by omega) h
    rcases List.mem_cons.mp hb with rfl | hmem
    · simp [List.length_take]; omega
    · have hdvd : 16 ∣ (l.drop 16).length := by
        simp only [List.length_drop]
        omega
      exact toBlocks_length hdvd b hmem
termination_by l.length
decreasing_by
  simp only [List.length_drop]
  have : l.length ≠ 0 := by
    intro h0
    exact (by assumption : ¬ l = []) (List.length_eq_zero.mp h0)
  omega

theorem toBlocks_bytesValid {l : List Nat} (h : bytesValid l) :
    ∀ b ∈ toBlocks l, bytesValid b := by
  rw [toBlocks]
  split
  · simp
  · intro b hb x hx
    rcases List.mem_cons.mp hb with rfl | hmem
    · exact h x (List.mem_of_mem_take hx)
    · have hd : bytesValid (l.drop 16) := fun y hy => h y (List.mem_of_mem_drop hy)
      exact toBlocks_bytesValid hd b hmem x hx
termination_by l.length
decreasing_by
  simp only [List.length_drop]
  have : l.length ≠ 0 := by
    intro h0
    exact (by assumption : ¬ l = []) (List.length_eq_zero.mp h0)
  omega

/-- Bytewise xor of two equal-length byte strings. -/
def zipXor (a b : List Nat) : List Nat := List.zipWith (fun x y => x ^^^ y) a b

theorem zipXor_length {a b : List Nat} (h : a.length = b.length) :
    (zipXor a b).length = a.length := by
  simp [zipXor, h]

theorem zipXor_bytesValid {a b : List Nat} (ha : bytesValid a) (hb : bytesValid b) :
    bytesValid (zipXor a b) := by
  induction a generalizing b with
  | nil => intro x hx; simp [zipXor] at hx
  | cons x t ih =>
    cases b with
    | nil => intro z hz; simp [zipXor] at hz
    | cons y u =>
      intro z hz
      simp only [zipXor, List.zipWith_cons_cons, List.mem_cons] at hz
      rcases hz with rfl | hz
      · have h1 : x < 2 ^ 8 := ha x (by simp)
        have h2 : y < 2 ^ 8 := hb y (by simp)
        calc x ^^^ y < 2 ^ 8 := Nat.xor_lt_two_pow h1 h2
          _ = 256 := by norm_num
      · exact ih (fun v hv => ha v (by simp [hv]))
          (fun v hv => hb v (by simp [hv])) z hz

theorem zipXor_zipXor_cancel {a b : List Nat} (h : a.length = b.length) :
    zipXor (zipXor a b) b = a := by
  induction a generalizing b with
  | nil => simp [zipXor]
  | cons x t ih =>
    cases b with
    | nil => simp at h
    | cons y u =>
      simp only [zipXor, List.zipWith_cons_cons]
      have hx : x ^^^ y ^^^ y = x := by
        rw [Nat.xor_assoc, Nat.xor_self, Nat.xor_zero]
      rw [hx]
      have ht : t.length = u.length := by simpa using h
      have := ih ht
      simp only [zipXor] at this
      rw [this]

/-- CBC encryption of a block list: each plaintext block is xored with the
previous ciphertext block (the IV for the first) and passed through the
block cipher `E`. -/
def cbcEncBlocks (E : List Nat → List Nat) (prev : List Nat) :
    List (List Nat) → List (List Nat)
  | [] => []
  | p :: ps => E (zipXor p prev) :: cbcEncBlocks E (E (zipXor p prev)) ps

/-- CBC decryption of a block list: each ciphertext block is passed through
the inverse cipher `D` and xored with the previous ciphertext block. -/
def cbcDecBlocks (D : List Nat → List Nat) (prev : List Nat) :
    List (List Nat) → List (List Nat)
  | [] => []
  | c :: cs => zipXor (D c) prev :: cbcDecBlocks D c cs

/-- The abstract interface of the keyed AES-256 block cipher: a pair of maps
on 16-byte blocks that are mutually inverse; the concrete key schedule is
outside the model. -/
structure CipherOK (E D : List Nat → List Nat) : Prop where
  len : ∀ b, blockValid b → (E b).length = 16
  val : ∀ b, blockValid b → bytesValid (E b)
  inv : ∀ b, blockValid b → D (E b) = b

theorem cbcEncBlocks_valid {E D : List Nat → List Nat} (hC : CipherOK E D)
    {prev : List Nat} (hprev : blockValid prev) :
    ∀ {ps : List (List Nat)}, (∀ p ∈ ps, blockValid p) →
      ∀ c ∈ cbcEncBlocks E prev ps, blockValid c := by
  intro ps
  induction ps generalizing prev with
  | nil => intro _ c hc; simp [cbcEncBlocks] at hc
  | cons p t ih =>
    intro hps c hc
    have hp : blockValid p := hps p (by simp)
    have hxor : blockValid (zipXor p prev) :=
      ⟨by rw [zipXor_length (by rw [hp.1, hprev.1])]; exact hp.1,
       zipXor_bytesValid hp.2 hprev.2⟩
    have hEp : blockValid (E (zipXor p prev)) :=
      ⟨hC.len _ hxor, hC.val _ hxor⟩
    rcases List.mem_cons.mp hc with rfl | hmem
    · exact hEp
    · exact ih hEp (fun x hx => hps x (by simp [hx])) c hmem

theorem cbcDec_cbcEnc {E D : List Nat → List Nat} (hC : CipherOK E D) :
    ∀ {ps : List (List Nat)} {prev : List Nat}, blockValid prev →
      (∀ p ∈ ps, blockValid p) →
      cbcDecBlocks D prev (cbcEncBlocks E prev ps) = ps := by
  intro ps
  induction ps with
  | nil => intro prev _ _; rfl
  | cons p t ih =>
    intro prev hprev hps
    have hp : blockValid p := hps p (by simp)
    have hxor : blockValid (zipXor p prev) :=
      ⟨by rw [zipXor_length (by rw [hp.1, hprev.1])]; exact hp.1,
       zipXor_bytesValid hp.2 hprev.2⟩
    have hEp : blockValid (E (zipXor p prev)) :=
      ⟨hC.len _ hxor, hC.val _ hxor⟩
    simp only [cbcEncBlocks, cbcDecBlocks]
    rw [hC.inv _ hxor, zipXor_zipXor_cancel (by rw [hp.1, hprev.1])]
    rw [ih hEp (fun x hx => hps x (by simp [hx]))]

/-! ### CredentialManager.encrypt / decrypt
(src/backend/services/CredentialManager.js, lines 30-90) -/

/-- CredentialManager.encrypt: `null` (here `none`) for falsy input (the
empty string), otherwise hex(iv) ++ colon ++ hex(CBC ciphertext of the
PKCS#7-padded data). The random 16-byte IV is a parameter. -/
def encrypt (E : List Nat → List Nat) (iv data : List Nat) : Option (List Nat) :=
  if data = [] then none
  else some (hexEncode iv ++ colonByte ::
    hexEncode (joinBlocks (cbcEncBlocks E iv (toBlocks (pad16 data)))))

/-- CredentialManager.decrypt: `Except.ok none` for falsy input, thrown
errors (bad format, bad hex, bad padding) are `Except.error ()`, otherwise
splits on the colon, hex-decodes IV and ciphertext, CBC-decrypts and
unpads. -/
def decrypt (D : List Nat → List Nat) (enc : List Nat) :
    Except Unit (Option (List Nat)) :=
  if enc = [] then .ok none
  else
    match splitOnColon enc with
    | [ivHex, ctHex] =>
      match hexDecode ivHex, hexDecode ctHex with
      | some iv, some ct =>
        match unpad16 (joinBlocks (cbcDecBlocks D iv (toBlocks ct))) with
        | some d => .ok (some d)
        | none => .error ()
      | _, _ => .error ()
    | _ => .error ()

theorem encrypt_ne_nil {E : List Nat → List Nat} {iv data ct : List Nat}
    (h : encrypt E iv data = some ct) : ct ≠ [] := by
  unfold encrypt at h
  split at h
  · exact absurd h (by simp)
  · intro hnil
    rw [Option.some_inj] at h
    rw [← h] at hnil
    simp at hnil

theorem encrypt_mem_colon {E : List Nat → List Nat} {iv data ct : List Nat}
    (h : encrypt E iv data = some ct) : colonByte ∈ ct := by
  unfold encrypt at h
  split at h
  · exact absurd h (by simp)
  · rw [Option.some_inj] at h
    rw [← h]
    simp

/-- Round trip of the per-field cipher: decrypting what encrypt produced
under the same key returns the original non-empty byte string. -/
theorem decrypt_encrypt {E D : List Nat → List Nat} (hC : CipherOK E D)
    {iv data ct : List Nat} (hiv : blockValid iv) (hdata : bytesValid data)
    (h : encrypt E iv data = some ct) :
    decrypt D ct = .ok (some data) := by
  unfold encrypt at h
  rw [if_neg] at h
  swap
  · intro hnil
    rw [hnil] at h
    simp [if_pos] at h
  rw [Option.some_inj] at h
  have hblocks : ∀ b ∈ toBlocks (pad16 data), blockValid b := fun b hb =>
    ⟨toBlocks_length (pad16_length_dvd data) b hb,
     toBlocks_bytesValid (pad16_bytesValid hdata) b hb⟩
  have hencValid : ∀ c ∈ cbcEncBlocks E iv (toBlocks (pad16 data)), blockValid c :=
    cbcEncBlocks_valid hC hiv hblocks
  have hctBytes : bytesValid (joinBlocks (cbcEncBlocks E iv (toBlocks (pad16 data)))) := by
    intro x hx
    simp only [joinBlocks, List.mem_flatten] at hx
    rcases hx with ⟨b, hb, hxb⟩
    exact (hencValid b hb).2 x hxb
  unfold decrypt
  rw [if_neg]
  swap
  · rw [← h]; simp
  rw [← h, splitOnColon_append (hexEncode_no_colon iv),
    splitOnColon_no_colon (hexEncode_no_colon _)]
  simp only [hexDecode_hexEncode hiv.2, hexDecode_hexEncode hctBytes,
    toBlocks_join (fun b hb => (hencValid b hb).1),
    cbcDec_cbcEnc hC hiv hblocks, joinBlocks_toBlocks, unpad16_pad16]

/-! ### Secret bags and storeCredentials / getCredentials
(src/backend/services/CredentialManager.js, lines 99-171) -/

/-- A JS value stored in a secret bag: a string (as bytes), a number, a
boolean, or null. -/
inductive JsVal where
  | vstr (s : List Nat)
  | vnum (n : Int)
  | vbool (b : Bool)
  | vnull
deriving DecidableEq, Repr

/-- A secret bag: an ordered key/value record. -/
abbrev Bag := List (String × JsVal)

/-- Value-level encryption step of storeCredentials: a string value is
encrypted (a `null` from encrypt becomes the stored value), everything
else passes through. -/
def encValue (E : List Nat → List Nat) (iv : List Nat) : JsVal → JsVal
  | JsVal.vstr s =>
    match encrypt E iv s with
    | some e => JsVal.vstr e
    | none => JsVal.vnull
  | v => v

/-- CredentialManager.storeCredentials, restricted to the encryption of the
bag (the surrounding mongoose upsert is the storage collaborator): every
string-valued field is encrypted with its own random IV (the `i`-th field
with `ivf i`), other fields pass through unchanged. -/
def storeCredentials (E : List Nat → List Nat) (ivf : Nat → List Nat)
    (bag : Bag) : Bag :=
  bag.enum.map fun p => (p.2.1, encValue E (ivf p.1) p.2.2)

/-- Value-level decryption step of getCredentials: a string value containing
a colon is decrypted (a thrown decrypt error propagates), everything else
passes through. -/
def getValue (D : List Nat → List Nat) : JsVal → Except Unit JsVal
  | JsVal.vstr s =>
    if colonByte ∈ s then
      match decrypt D s with
      | .ok (some d) => .ok (JsVal.vstr d)
      | .ok none => .ok JsVal.vnull
      | .error e => .error e
    else .ok (JsVal.vstr s)
  | v => .ok v

/-- CredentialManager.getCredentials, restricted to the decryption of the
stored bag: fields are decrypted in order; a thrown decrypt error aborts
the whole call (the catch rethrows a wrapped error). -/
def getCredentials (D : List Nat → List Nat) : Bag → Except Unit Bag
  | [] => .ok []
  | (k, v) :: rest => do
    let v' ← getValue D v
    let r ← getCredentials D rest
    .ok ((k, v') :: r)

/-- Validity of the per-field IV source: each IV is a 16-byte block, as
crypto.randomBytes(16) produces. -/
def ivsValid (ivf : Nat → List Nat) : Prop := ∀ i, blockValid (ivf i)

theorem getValue_encValue_vstr {E D : List Nat → List Nat} (hC : CipherOK E D)
    {iv : List Nat} (hiv : blockValid iv) {s : List Nat}
    (hs : bytesValid s) (hne : s ≠ []) :
    getValue D (encValue E iv (JsVal.vstr s)) = .ok (JsVal.vstr s) := by
  obtain ⟨ct, hct⟩ : ∃ ct, encrypt E iv s = some ct := by
    unfold encrypt
    rw [if_neg hne]
    exact ⟨_, rfl⟩
  simp only [encValue, hct, getValue]
  rw [if_pos (encrypt_mem_colon hct), decrypt_encrypt hC hiv hs hct]

/-- Round trip of the bag encryption, generalised over the enumeration
start index of storeCredentials. -/
theorem getCredentials_store_aux {E D : List Nat → List Nat} (hC : CipherOK E D)
    {ivf : Nat → List Nat} (hiv : ivsValid ivf) :
    ∀ (bag : Bag) (n : Nat),
      (∀ kv ∈ bag, ∃ s, kv.2 = JsVal.vstr s ∧ bytesValid s ∧ s ≠ []) →
      getCredentials D ((bag.enumFrom n).map fun p => (p.2.1, encValue E (ivf p.1) p.2.2))
        = .ok bag := by
  intro bag
  induction bag with
  | nil => intro n _; rfl
  | cons kv rest ih =>
    intro n hbag
    rcases kv with ⟨k, v⟩
    rcases hbag (k, v) (by simp) with ⟨s, hs, hval, hne⟩
    have hv : v = JsVal.vstr s := hs
    subst hv
    simp only [List.enumFrom, List.map_cons, getCredentials]
    rw [getValue_encValue_vstr hC (hiv n) hval hne]
    rw [ih (n + 1) (fun x hx => hbag x (by simp [hx]))]
    rfl

theorem getCredentials_cons {D : List Nat → List Nat} {k : String} {v : JsVal}
    {rest : Bag} {res : Bag}
    (h : getCredentials D ((k, v) :: rest) = .ok res) :
    ∃ v' r, getValue D v = .ok v' ∧ getCredentials D rest = .ok r ∧
      res = (k, v') :: r := by
  simp only [getCredentials] at h
  cases hv : getValue D v with
  | error e => rw [hv] at h; simp [Bind.bind, Except.bind] at h
  | ok v' =>
    rw [hv] at h
    cases hr : getCredentials D rest with
    | error e => rw [hr] at h; simp [Bind.bind, Except.bind] at h
    | ok r =>
      rw [hr] at h
      simp only [Bind.bind, Except.bind] at h
      exact ⟨v', r, rfl, rfl, (Except.ok.inj h).symm⟩

theorem getCredentials_vnull_field {D : List Nat → List Nat} :
    ∀ {l res : Bag}, getCredentials D l = .ok res →
      ∀ (i : Nat) (k : String),
        l[i]? = some (k, JsVal.vnull) → res[i]? = some (k, JsVal.vnull) := by
  intro l
  induction l with
  | nil =>
    intro res h i k hi
    simp at hi
  | cons kv rest ih =>
    intro res h i k hi
    rcases kv with ⟨k0, v0⟩
    rcases getCredentials_cons h with ⟨v', r, hv, hr, rfl⟩
    cases i with
    | zero =>
      simp only [List.getElem?_cons_zero, Option.some_inj] at hi
      have hk : k0 = k := congrArg Prod.fst hi
      have hv0 : v0 = JsVal.vnull := congrArg Prod.snd hi
      subst hk hv0
      have : getValue D JsVal.vnull = .ok JsVal.vnull := rfl
      rw [this] at hv
      have hv' : v' = JsVal.vnull := (Except.ok.inj hv).symm
      subst hv'
      simp
    | succ j =>
      simp only [List.getElem?_cons_succ] at hi ⊢
      exact ih hr j k hi

/-- C1 (amended): for every cipher pair satisfying the AES-256-CBC inverse
property, every family of 16-byte IVs, and every secret bag whose fields
are all non-empty string values, getCredentials after storeCredentials
returns the original bag: per-field encrypt followed by decrypt under the
same key is the identity on every non-empty string value. (The empty
string is the exception forced by encrypt's falsy-input guard, see the
counterexample and C10.) -/
theorem C1_credential_roundtrip (E D : List Nat → List Nat)
    (ivf : Nat → List Nat) (bag : Bag) (hC : CipherOK E D) (hiv : ivsValid ivf)
    (hbag : ∀ kv ∈ bag, ∃ s, kv.2 = JsVal.vstr s ∧ bytesValid s ∧ s ≠ []) :
    getCredentials D (storeCredentials E ivf bag) = .ok bag :=
  getCredentials_store_aux hC hiv bag 0 hbag

/-- Witness for C1: the round trip evaluated on a concrete one-field bag
with value the byte string of the letter x, under the identity block
cipher and an all-zero IV. -/
theorem C1_credential_roundtrip_witness :
    getCredentials (fun b => b)
        (storeCredentials (fun b => b) (fun _ => List.replicate 16 0)
          [("a", JsVal.vstr [120])])
      = .ok [("a", JsVal.vstr [120])] :=
  C1_credential_roundtrip (fun b => b) (fun b => b) (fun _ => List.replicate 16 0)
    [("a", JsVal.vstr [120])]
    ⟨fun _ h => h.1, fun _ h => h.2, fun _ _ => rfl⟩
    (fun _ => ⟨by simp, fun b hb => by
      simp [List.mem_replicate] at hb; omega⟩)
    (fun kv hkv => by
      simp at hkv
      subst hkv
      exact ⟨[120], rfl, by intro b hb; simp at hb; omega, by simp⟩)

/-- Counterexample to C1 as stated: with the identity block cipher, all-zero
IVs and the one-field bag whose value is the empty string, all hypotheses
of the claim hold (valid cipher, valid IVs, string-valued bag), yet the
bag does not round-trip: the field comes back as null, not as the empty
string. -/
theorem C1_counterexample :
    CipherOK (fun b => b) (fun b => b) ∧
    ivsValid (fun _ => List.replicate 16 0) ∧
    (∀ kv ∈ ([("a", JsVal.vstr [])] : Bag), ∃ s, kv.2 = JsVal.vstr s ∧ bytesValid s) ∧
    getCredentials (fun b => b)
        (storeCredentials (fun b => b) (fun _ => List.replicate 16 0)
          [("a", JsVal.vstr [])])
      ≠ .ok [("a", JsVal.vstr [])] := by
  refine ⟨⟨fun _ h => h.1, fun _ h => h.2, fun _ _ => rfl⟩, ?_, ?_, ?_⟩
  · intro i
    exact ⟨by simp, fun b hb => by simp [List.mem_replicate] at hb; omega⟩
  · intro kv hkv
    simp at hkv
    subst hkv
    exact ⟨[], rfl, by intro b hb; simp at hb⟩
  · intro h
    have heval : getCredentials (fun b => b)
        (storeCredentials (fun b => b) (fun _ => List.replicate 16 0)
          [("a", JsVal.vstr [])]) = .ok [("a", JsVal.vnull)] := rfl
    rw [heval] at h
    simp at h

/-- C10: a field whose value is the empty string hits encrypt's falsy-input
guard, which returns null; storeCredentials therefore persists the field
as null, and getCredentials returns the field as null, not as the empty
string. -/
theorem C10_empty_string_to_null (E D : List Nat → List Nat)
    (ivf : Nat → List Nat) (bag : Bag) (k : String) (i : Nat)
    (h : bag[i]? = some (k, JsVal.vstr [])) :
    encrypt E (ivf i) [] = none ∧
    (storeCredentials E ivf bag)[i]? = some (k, JsVal.vnull) ∧
    ∀ res, getCredentials D (storeCredentials E ivf bag) = .ok res →
      res[i]? = some (k, JsVal.vnull) := by
  have hstore : (storeCredentials E ivf bag)[i]? = some (k, JsVal.vnull) := by
    unfold storeCredentials
    rw [List.getElem?_map, List.getElem?_enum, h]
    rfl
  refine ⟨rfl, hstore, fun res hres => ?_⟩
  exact getCredentials_vnull_field hres i k hstore

/-- Witness for C10 on a concrete two-field bag whose second field is the
empty string, under the identity block cipher and an all-zero IV. -/
theorem C10_empty_string_to_null_witness :
    encrypt (fun b => b) ((fun _ => List.replicate 16 0) 1) [] = none ∧
    (storeCredentials (fun b => b) (fun _ => List.replicate 16 0)
        [("a", JsVal.vstr [120]), ("b", JsVal.vstr [])])[1]?
      = some ("b", JsVal.vnull) ∧
    ∀ res, getCredentials (fun b => b)
        (storeCredentials (fun b => b) (fun _ => List.replicate 16 0)
          [("a", JsVal.vstr [120]), ("b", JsVal.vstr [])]) = .ok res →
      res[1]? = some ("b", JsVal.vnull) :=
  C10_empty_string_to_null (fun b => b) (fun b => b)
    (fun _ => List.replicate 16 0)
    [("a", JsVal.vstr [120]), ("b", JsVal.vstr [])] "b" 1 rfl

/-! ### Job listings, removeDuplicateJobs and filterJobsByRecency
(src/backend/tests/automation_test.js, lines 822-831 and 911-924) -/

/-- The company of a job listing (only the name is consumed by the core). -/
structure Company where
  name : String
deriving DecidableEq, Repr

/-- A job listing as consumed by dedup, recency filter and dispatch.
publishedAt is a millisecond timestamp, `none` when missing. -/
structure Job where
  id : String
  title : String
  company : Company
  applicationUrl : String
  publishedAt : Option Int
deriving DecidableEq, Repr

/-- JS String.toLowerCase on the ASCII range, character by character. -/
def jsToLower (s : String) : String := ⟨s.data.map Char.toLower⟩

/-- The dedup key built by removeDuplicateJobs: lowercased title, a dash,
lowercased company name. -/
def jobKey (j : Job) : String :=
  jsToLower j.title ++ "-" ++ jsToLower j.company.name

/-- The loop of removeDuplicateJobs with its seen set made explicit. -/
def removeDuplicateJobsAux : List Job → List String → List Job
  | [], _ => []
  | j :: rest, seen =>
    if jobKey j ∈ seen then removeDuplicateJobsAux rest seen
    else j :: removeDuplicateJobsAux rest (jobKey j :: seen)

/-- removeDuplicateJobs: keep the first job for each distinct key. -/
def removeDuplicateJobs (jobs : List Job) : List Job :=
  removeDuplicateJobsAux jobs []

theorem removeDuplicateJobsAux_countP (k : String) :
    ∀ (l : List Job) (seen : List String),
      (removeDuplicateJobsAux l seen).countP (fun j => jobKey j == k)
        = if k ∈ l.map jobKey ∧ k ∉ seen then 1 else 0 := by
  intro l
  induction l with
  | nil => intro seen; simp [removeDuplicateJobsAux]
  | cons j rest ih =>
    intro seen
    simp only [removeDuplicateJobsAux]
    by_cases hseen : jobKey j ∈ seen
    · rw [if_pos hseen, ih seen]
      by_cases hk : k = jobKey j
      · subst hk
        simp [hseen]
      · simp [hk]
    · rw [if_neg hseen, List.countP_cons, ih (jobKey j :: seen)]
      have hk' : ∀ hk : ¬ k = jobKey j, ¬ jobKey j = k := fun hk h => hk h.symm
      by_cases hk : k = jobKey j
      · subst hk
        simp [hseen]
      · simp [hk, hk' hk]

theorem removeDuplicateJobsAux_first :
    ∀ (l : List Job) (seen : List String) (j : Job),
      j ∈ removeDuplicateJobsAux l seen →
        jobKey j ∉ seen ∧ l.find? (fun x => jobKey x == jobKey j) = some j := by
  intro l
  induction l with
  | nil => intro seen j hj; simp [removeDuplicateJobsAux] at hj
  | cons a rest ih =>
    intro seen j hj
    simp only [removeDuplicateJobsAux] at hj
    by_cases hseen : jobKey a ∈ seen
    · rw [if_pos hseen] at hj
      rcases ih seen j hj with ⟨hout, hfind⟩
      have hne : jobKey a ≠ jobKey j := fun hEq => hout (hEq ▸ hseen)
      refine ⟨hout, ?_⟩
      rw [List.find?_cons_of_neg _ (by simp [hne]), hfind]
    · rw [if_neg hseen] at hj
      rcases List.mem_cons.mp hj with rfl | hj'
      · exact ⟨hseen, by rw [List.find?_cons_of_pos _ (by simp)]⟩
      · rcases ih (jobKey a :: seen) j hj' with ⟨hout, hfind⟩
        have hne : jobKey a ≠ jobKey j := fun hEq => hout (by simp [hEq])
        have hout' : jobKey j ∉ seen := fun hmem => hout (by simp [hmem])
        refine ⟨hout', ?_⟩
        rw [List.find?_cons_of_neg _ (by simp [hne]), hfind]

/-- C5: removeDuplicateJobs returns exactly one entry per distinct
case-insensitive dedup key occurring in the input (the key being the
lowercased title joined to the lowercased company name), and each returned
entry is the first occurrence of its key in input order. -/
theorem C5_dedup_first_occurrence (jobs : List Job) :
    (∀ k : String,
      (removeDuplicateJobs jobs).countP (fun j => jobKey j == k)
        = if k ∈ jobs.map jobKey then 1 else 0) ∧
    (∀ j ∈ removeDuplicateJobs jobs,
      jobs.find? (fun x => jobKey x == jobKey j) = some j) := by
  constructor
  · intro k
    rw [removeDuplicateJobs, removeDuplicateJobsAux_countP k jobs []]
    simp
  · intro j hj
    exact (removeDuplicateJobsAux_first jobs [] j hj).2

/-- Witness for C5: a concrete three-job list where the second job repeats
the first key with different letter case; the output keeps one entry per
key, and that entry is the first occurrence. -/
theorem C5_dedup_first_occurrence_witness :
    ((removeDuplicateJobs
        [⟨"1", "Dev", ⟨"Acme"⟩, "u1", none⟩,
         ⟨"2", "DEV", ⟨"acme"⟩, "u2", none⟩,
         ⟨"3", "Ops", ⟨"Acme"⟩, "u3", none⟩]).countP
      (fun j => jobKey j == "dev-acme") = 1) ∧
    ([⟨"1", "Dev", ⟨"Acme"⟩, "u1", none⟩,
      ⟨"2", "DEV", ⟨"acme"⟩, "u2", none⟩,
      ⟨"3", "Ops", ⟨"Acme"⟩, "u3", none⟩] : List Job).find?
        (fun x => jobKey x == jobKey ⟨"1", "Dev", ⟨"Acme"⟩, "u1", none⟩)
      = some ⟨"1", "Dev", ⟨"Acme"⟩, "u1", none⟩ := by
  constructor
  · rw [(C5_dedup_first_occurrence
      [⟨"1", "Dev", ⟨"Acme"⟩, "u1", none⟩,
       ⟨"2", "DEV", ⟨"acme"⟩, "u2", none⟩,
       ⟨"3", "Ops", ⟨"Acme"⟩, "u3", none⟩]).1 "dev-acme"]
    decide
  · exact (C5_dedup_first_occurrence
      [⟨"1", "Dev", ⟨"Acme"⟩, "u1", none⟩,
       ⟨"2", "DEV", ⟨"acme"⟩, "u2", none⟩,
       ⟨"3", "Ops", ⟨"Acme"⟩, "u3", none⟩]).2
      ⟨"1", "Dev", ⟨"Acme"⟩, "u1", none⟩ (by decide)

/-- Milliseconds per hour, the unit conversion done by Date.setHours. -/
def msPerHour : Int := 3600000

/-- filterJobsByRecency: keep a job when publishedAt is missing, else keep
it exactly when it is at least the cutoff, now minus the hour bound. -/
def filterJobsByRecency (jobs : List Job) (hours now : Int) : List Job :=
  jobs.filter fun job =>
    match job.publishedAt with
    | none => true
    | some t => decide (now - hours * msPerHour ≤ t)

/-- C6: the recency filter retains every listing with a missing publishedAt
and excludes every listing older than now minus the hour bound (and only
selects from the input). -/
theorem C6_recency_filter (jobs : List Job) (hours now : Int) :
    (∀ j ∈ jobs, j.publishedAt = none → j ∈ filterJobsByRecency jobs hours now) ∧
    (∀ j ∈ jobs, ∀ t, j.publishedAt = some t → t < now - hours * msPerHour →
      j ∉ filterJobsByRecency jobs hours now) ∧
    (∀ j ∈ filterJobsByRecency jobs hours now, j ∈ jobs) := by
  refine ⟨?_, ?_, ?_⟩
  · intro j hj hnone
    rw [filterJobsByRecency, List.mem_filter]
    exact ⟨hj, by rw [hnone]⟩
  · intro j hj t ht hlt hmem
    rw [filterJobsByRecency, List.mem_filter, ht] at hmem
    have := of_decide_eq_true hmem.2
    omega
  · intro j hj
    exact (List.mem_filter.mp hj).1

/-- Witness for C6: with the cutoff at hour 2 before time 10 times an hour
in milliseconds, a missing-publishedAt job is kept and a stale job is
dropped. -/
theorem C6_recency_filter_witness :
    (⟨"1", "a", ⟨"c"⟩, "u", none⟩ : Job)
        ∈ filterJobsByRecency
          [⟨"1", "a", ⟨"c"⟩, "u", none⟩, ⟨"2", "b", ⟨"c"⟩, "u", some 0⟩]
          2 (10 * msPerHour) ∧
    (⟨"2", "b", ⟨"c"⟩, "u", some 0⟩ : Job)
        ∉ filterJobsByRecency
          [⟨"1", "a", ⟨"c"⟩, "u", none⟩, ⟨"2", "b", ⟨"c"⟩, "u", some 0⟩]
          2 (10 * msPerHour) := by
  constructor
  · exact (C6_recency_filter
      [⟨"1", "a", ⟨"c"⟩, "u", none⟩, ⟨"2", "b", ⟨"c"⟩, "u", some 0⟩]
      2 (10 * msPerHour)).1 ⟨"1", "a", ⟨"c"⟩, "u", none⟩ (by decide) rfl
  · exact (C6_recency_filter
      [⟨"1", "a", ⟨"c"⟩, "u", none⟩, ⟨"2", "b", ⟨"c"⟩, "u", some 0⟩]
      2 (10 * msPerHour)).2.1 ⟨"2", "b", ⟨"c"⟩, "u", some 0⟩ (by decide) 0 rfl
      (by decide)

/-! ### Portal classification
(AutomatedJobApplicant.detectApplicationSystem, src/unnamed/part_004 lines
133-147, and determinePortal, src/unnamed/part_002 lines 303-319) -/

/-- Whether the first list is a prefix of the second, character by
character. -/
def charsStartWith : List Char → List Char → Bool
  | [], _ => true
  | _ :: _, [] => false
  | a :: s1, b :: s2 => a == b && charsStartWith s1 s2

/-- JS String.includes: the fragment occurs contiguously in the string. -/
def jsIncludes (sub : List Char) : List Char → Bool
  | [] => charsStartWith sub []
  | c :: t => charsStartWith sub (c :: t) || jsIncludes sub t

/-- AutomatedJobApplicant.detectApplicationSystem: substring dispatch of an
application URL onto an application-system kind, defaulting to generic. -/
def detectApplicationSystem (url : List Char) : String :=
  if jsIncludes "myworkdayjobs.com".toList url
      || jsIncludes "workday.com".toList url then "workday"
  else if jsIncludes "greenhouse.io".toList url then "greenhouse"
  else if jsIncludes "lever.co".toList url then "lever"
  else if jsIncludes "indeed.com".toList url then "indeed"
  else if jsIncludes "linkedin.com".toList url then "linkedin"
  else "generic"

/-- determinePortal of the auto-apply routes: the same dispatch with a
glassdoor branch, defaulting to the portal name other. -/
def determinePortal (url : List Char) : String :=
  if jsIncludes "myworkdayjobs.com".toList url
      || jsIncludes "workday.com".toList url then "workday"
  else if jsIncludes "greenhouse.io".toList url then "greenhouse"
  else if jsIncludes "lever.co".toList url then "lever"
  else if jsIncludes "indeed.com".toList url then "indeed"
  else if jsIncludes "linkedin.com".toList url then "linkedin"
  else if jsIncludes "glassdoor.com".toList url then "glassdoor"
  else "other"

/-- C7: portal classification is a total deterministic pure function of the
URL characters: the result is always exactly one of the fixed kinds,
repeated application gives the same kind, a URL containing
myworkdayjobs.com classifies as workday, and a URL matching none of the
known domain fragments classifies as generic (resp. other for
determinePortal). -/
theorem C7_portal_classification (url : List Char) :
    (detectApplicationSystem url
        ∈ (["workday", "greenhouse", "lever", "indeed", "linkedin", "generic"]
            : List String)) ∧
    (determinePortal url
        ∈ (["workday", "greenhouse", "lever", "indeed", "linkedin",
            "glassdoor", "other"] : List String)) ∧
    detectApplicationSystem url = detectApplicationSystem url ∧
    determinePortal url = determinePortal url ∧
    (jsIncludes "myworkdayjobs.com".toList url = true →
      detectApplicationSystem url = "workday" ∧ determinePortal url = "workday") ∧
    (jsIncludes "myworkdayjobs.com".toList url = false →
     jsIncludes "workday.com".toList url = false →
     jsIncludes "greenhouse.io".toList url = false →
     jsIncludes "lever.co".toList url = false →
     jsIncludes "indeed.com".toList url = false →
     jsIncludes "linkedin.com".toList url = false →
     jsIncludes "glassdoor.com".toList url = false →
      detectApplicationSystem url = "generic" ∧ determinePortal url = "other") := by
  refine ⟨?_, ?_, rfl, rfl, ?_, ?_⟩
  · unfold detectApplicationSystem
    split_ifs <;> simp
  · unfold determinePortal
    split_ifs <;> simp
  · intro h
    have h' : (jsIncludes "myworkdayjobs.com".toList url
        || jsIncludes "workday.com".toList url) = true := by
      rw [h]; exact Bool.true_or _
    constructor
    · unfold detectApplicationSystem
      rw [if_pos h']
    · unfold determinePortal
      rw [if_pos h']
  · intro h1 h2 h3 h4 h5 h6 h7
    have hw : (jsIncludes "myworkdayjobs.com".toList url
        || jsIncludes "workday.com".toList url) = false := by
      rw [h1, h2]; rfl
    constructor
    · unfold detectApplicationSystem
      rw [if_neg (by rw [hw]; exact Bool.false_ne_true),
        if_neg (by rw [h3]; exact Bool.false_ne_true),
        if_neg (by rw [h4]; exact Bool.false_ne_true),
        if_neg (by rw [h5]; exact Bool.false_ne_true),
        if_neg (by rw [h6]; exact Bool.false_ne_true)]
    · unfold determinePortal
      rw [if_neg (by rw [hw]; exact Bool.false_ne_true),
        if_neg (by rw [h3]; exact Bool.false_ne_true),
        if_neg (by rw [h4]; exact Bool.false_ne_true),
        if_neg (by rw [h5]; exact Bool.false_ne_true),
        if_neg (by rw [h6]; exact Bool.false_ne_true),
        if_neg (by rw [h7]; exact Bool.false_ne_true)]

/-- Witness for C7: a workday URL classifies as workday, and an unmatched
URL classifies as generic and other, at concrete URLs. -/
theorem C7_portal_classification_witness :
    detectApplicationSystem "https://co.myworkdayjobs.com/j/1".toList = "workday" ∧
    determinePortal "https://co.myworkdayjobs.com/j/1".toList = "workday" ∧
    detectApplicationSystem "https://example.com/careers/42".toList = "generic" ∧
    determinePortal "https://example.com/careers/42".toList = "other" := by
  refine ⟨?_, ?_, ?_, ?_⟩
  · exact ((C7_portal_classification _).2.2.2.2.1 (by decide)).1
  · exact ((C7_portal_classification _).2.2.2.2.1 (by decide)).2
  · exact ((C7_portal_classification _).2.2.2.2.2 (by decide) (by decide)
      (by decide) (by decide) (by decide) (by decide) (by decide)).1
  · exact ((C7_portal_classification _).2.2.2.2.2 (by decide) (by decide)
      (by decide) (by decide) (by decide) (by decide) (by decide)).2

/-! ### AutomatedJobApplicant.applyToJob
(src/unnamed/part_004, lines 66-126) -/

/-- A result object of the application layer: `none` in a field models a JS
property that is absent (undefined) on the object. -/
structure AppResult where
  jobId : String
  success : Bool
  company : Option String := none
  title : Option String := none
  applicationUrl : Option String := none
  timestamp : Option Int := none
  error : Option String := none
  applicationId : Option String := none
deriving DecidableEq, Repr

/-- The outcome of running the selected portal adapter variant on the
remote page: it either runs to its return statement (success decided by
the confirmation-marker probe) or an exception escapes it. -/
inductive AdapterOutcome where
  | finished (success : Bool)
  | thrown (msg : String)
deriving DecidableEq, Repr

/-- The result object every portal adapter variant returns on its normal
path: success flag, jobId, company name, title, applicationUrl and an ISO
timestamp (modelled as the numeric clock value). -/
def adapterResult (job : Job) (now : Int) (success : Bool) : AppResult :=
  { jobId := job.id, success := success, company := some job.company.name,
    title := some job.title, applicationUrl := some job.applicationUrl,
    timestamp := some now }

/-- AutomatedJobApplicant.applyToJob: lazily starts the browser (early
failed return when that fails), dispatches on the detected application
system, records the returned result, and catches any escaped exception
into a failed result carrying the message; the run and remote behaviour
are summarised by the AdapterOutcome parameter. Returns the result and the
updated applicationResults list. -/
def applyToJob (browserLive initOk : Bool) (outcome : AdapterOutcome)
    (now : Int) (job : Job) (results : List AppResult) :
    AppResult × List AppResult :=
  if !browserLive && !initOk then
    ({ jobId := job.id, success := false,
       error := some "Failed to initialize browser" }, results)
  else
    match outcome with
    | .finished success =>
      let r := adapterResult job now success
      (r, results ++ [r])
    | .thrown msg =>
      let r : AppResult :=
        { jobId := job.id, success := false, company := some job.company.name,
          title := some job.title, applicationUrl := some job.applicationUrl,
          error := some msg, timestamp := some now }
      (r, results ++ [r])

/-- C8: once the adapter dispatch is reached (the browser is live or lazily
starts), a top-level exception thrown by the selected adapter variant
never escapes applyToJob: it is caught and returned as a failed
ApplicationResult whose error field carries the message, and the result is
recorded by appending it to the applicationResults list. -/
theorem C8_applyToJob_catches (browserLive initOk : Bool) (msg : String)
    (now : Int) (job : Job) (results : List AppResult)
    (hdispatch : browserLive = true ∨ initOk = true) :
    (applyToJob browserLive initOk (.thrown msg) now job results).1.success = false ∧
    (applyToJob browserLive initOk (.thrown msg) now job results).1.error = some msg ∧
    (applyToJob browserLive initOk (.thrown msg) now job results).2
      = results ++ [(applyToJob browserLive initOk (.thrown msg) now job results).1] := by
  have hcond : (!browserLive && !initOk) = false := by
    rcases hdispatch with rfl | rfl
    · rfl
    · cases browserLive <;> rfl
  unfold applyToJob
  rw [if_neg (by rw [hcond]; exact Bool.false_ne_true)]
  exact ⟨rfl, rfl, rfl⟩

/-- Witness for C8 on a concrete job with a live browser and a thrown
adapter exception. -/
theorem C8_applyToJob_catches_witness :
    (applyToJob true true (.thrown "boom") 5 ⟨"j1", "Dev", ⟨"Acme"⟩, "u", none⟩
        []).1.success = false ∧
    (applyToJob true true (.thrown "boom") 5 ⟨"j1", "Dev", ⟨"Acme"⟩, "u", none⟩
        []).1.error = some "boom" ∧
    (applyToJob true true (.thrown "boom") 5 ⟨"j1", "Dev", ⟨"Acme"⟩, "u", none⟩
        []).2
      = [] ++ [(applyToJob true true (.thrown "boom") 5
          ⟨"j1", "Dev", ⟨"Acme"⟩, "u", none⟩ []).1] :=
  C8_applyToJob_catches true true "boom" 5 ⟨"j1", "Dev", ⟨"Acme"⟩, "u", none⟩ []
    (Or.inl rfl)

/-! ### Batch processing
(POST /batch handler, processBatchApplications, saveBatchStatus,
getBatchStatus; src/unnamed/part_002, lines 218-264 and 427-576) -/

/-- Outcome of one iteration's attempt on a found job with credentials:
either applicant.applyToJob returned a result (it catches adapter
exceptions internally), or some awaited call of the iteration threw and
the loop's catch handles it. -/
inductive IterOutcome where
  | adapterDone (success : Bool) (err : Option String)
  | iterThrown (msg : String)
deriving DecidableEq, Repr

/-- The collaborators and nondeterminism of the batch route: the job store,
the credential store, the per-job run outcome, the mongo id given to a
saved Application, the successive generateBatchId results, and the clock. -/
structure BatchEnv where
  findJob : String → Option Job
  hasCreds : String → Bool
  runJob : String → IterOutcome
  newApplicationId : String → String
  gen : Nat → String
  clock : Int

/-- The batch record created by processBatchApplications. -/
structure BatchRec where
  id : String
  userId : String
  jobIds : List String
  status : String
  progress : Nat
  results : List AppResult
  startTime : Int
  endTime : Option Int
deriving DecidableEq, Repr

/-- Math.round of 100 times k over n, on nonnegative rationals:
floor of the value plus one half. -/
def jsRoundPct (k n : Nat) : Nat := (200 * k + n) / (2 * n)

/-- saveBatchStatus: upsert of the batch record by id into the in-memory
store object. -/
def saveBatchStatus (store : List (String × BatchRec)) (b : BatchRec) :
    List (String × BatchRec) :=
  if store.any (fun p => p.1 == b.id)
  then store.map (fun p => if p.1 == b.id then (p.1, b) else p)
  else store ++ [(b.id, b)]

/-- getBatchStatus: lookup of a batch record by id. -/
def getBatchStatus (store : List (String × BatchRec)) (batchId : String) :
    Option BatchRec :=
  (store.find? (fun p => p.1 == batchId)).map (fun p => p.2)

/-- The single result object each loop iteration appends for a job,
as a function of the environment. -/
def iterResult (env : BatchEnv) (jobId : String) : AppResult :=
  match env.findJob jobId with
  | none => { jobId := jobId, success := false, error := some "Job not found" }
  | some job =>
    let portal := determinePortal job.applicationUrl.toList
    if env.hasCreds portal then
      match env.runJob jobId with
      | .adapterDone true _ =>
        { jobId := jobId, success := true,
          applicationId := some (env.newApplicationId jobId) }
      | .adapterDone false err =>
        { jobId := jobId, success := false, error := err }
      | .iterThrown msg =>
        { jobId := jobId, success := false, error := some msg }
    else
      { jobId := jobId, success := false,
        error := some ("No credentials for " ++ portal) }

/-- Whether a job's iteration reaches the application attempt: the job is
found and credentials for its portal exist. The two early-continue
failures skip the tail of the loop body. -/
def jobAttempted (env : BatchEnv) (jobId : String) : Bool :=
  match env.findJob jobId with
  | none => false
  | some job => env.hasCreds (determinePortal job.applicationUrl.toList)

/-- One iteration of the processBatchApplications loop over job index `i`
of `n`: push the result; on the two continue paths (job not found, no
credentials) skip the progress update, the save and the delay; otherwise
update progress, persist and delay. The returned Bool says whether the
inter-job delay was performed. -/
def batchStep (env : BatchEnv) (n i : Nat) (jobId : String)
    (b : BatchRec) (store : List (String × BatchRec)) :
    BatchRec × List (String × BatchRec) × Bool :=
  match env.findJob jobId with
  | none =>
    ({ b with results := b.results ++
        [{ jobId := jobId, success := false, error := some "Job not found" }] },
     store, false)
  | some job =>
    let portal := determinePortal job.applicationUrl.toList
    if env.hasCreds portal then
      let b1 : BatchRec :=
        match env.runJob jobId with
        | .adapterDone true _ =>
          { b with results := b.results ++
              [{ jobId := jobId, success := true,
                 applicationId := some (env.newApplicationId jobId) }] }
        | .adapterDone false err =>
          { b with results := b.results ++
              [{ jobId := jobId, success := false, error := err }] }
        | .iterThrown msg =>
          { b with results := b.results ++
              [{ jobId := jobId, success := false, error := some msg }] }
      let b2 := { b1 with progress := jsRoundPct (i + 1) n }
      (b2, saveBatchStatus store b2, true)
    else
      ({ b with results := b.results ++
          [{ jobId := jobId, success := false,
             error := some ("No credentials for " ++ portal) }] },
       store, false)

/-- The loop of processBatchApplications; also returns, per job in order,
whether the inter-job delay was performed. -/
def batchLoop (env : BatchEnv) (n : Nat) :
    List String → Nat → BatchRec → List (String × BatchRec) →
      BatchRec × List (String × BatchRec) × List Bool
  | [], _, b, store => (b, store, [])
  | jobId :: rest, i, b, store =>
    let s := batchStep env n i jobId b store
    let r := batchLoop env n rest (i + 1) s.1 s.2.1
    (r.1, r.2.1, s.2.2 :: r.2.2)

/-- processBatchApplications: create the batch record with a fresh id (the
second generateBatchId call of the request), persist it, run the loop over
the job ids sequentially, then mark the batch completed and persist. -/
def processBatchApplications (env : BatchEnv) (userId : String)
    (jobIds : List String) (store0 : List (String × BatchRec)) :
    BatchRec × List (String × BatchRec) × List Bool :=
  let b0 : BatchRec :=
    { id := env.gen 1, userId := userId, jobIds := jobIds,
      status := "processing", progress := 0, results := [],
      startTime := env.clock, endTime := none }
  let store1 := saveBatchStatus store0 b0
  let r := batchLoop env jobIds.length jobIds 0 b0 store1
  let bF := { r.1 with status := "completed", endTime := some env.clock }
  (bF, saveBatchStatus r.2.1 bF, r.2.2)

/-- The POST /batch handler: respond immediately with one generateBatchId
result (call 0), then run processBatchApplications in the background,
which creates the batch under a second generateBatchId result (call 1). -/
def routeBatchApply (env : BatchEnv) (userId : String) (jobIds : List String) :
    String × BatchRec × List (String × BatchRec) × List Bool :=
  (env.gen 0, processBatchApplications env userId jobIds [])

theorem batchStep_spec (env : BatchEnv) (n i : Nat) (jobId : String)
    (b : BatchRec) (store : List (String × BatchRec)) :
    (batchStep env n i jobId b store).1.results
        = b.results ++ [iterResult env jobId] ∧
    (batchStep env n i jobId b store).2.2 = jobAttempted env jobId := by
  unfold batchStep iterResult jobAttempted
  cases h : env.findJob jobId with
  | none => exact ⟨rfl, rfl⟩
  | some job =>
    by_cases hc : env.hasCreds (determinePortal job.applicationUrl.toList)
    · simp only [hc, if_true]
      cases hr : env.runJob jobId with
      | adapterDone success err => cases success <;> simp
      | iterThrown msg => simp
    · simp only [Bool.not_eq_true] at hc
      simp only [hc]
      simp

theorem batchLoop_spec (env : BatchEnv) (n : Nat) :
    ∀ (l : List String) (i : Nat) (b : BatchRec)
      (store : List (String × BatchRec)),
      (batchLoop env n l i b store).1.results
          = b.results ++ l.map (iterResult env) ∧
      (batchLoop env n l i b store).2.2 = l.map (jobAttempted env) := by
  intro l
  induction l with
  | nil => intro i b store; simp [batchLoop]
  | cons jobId rest ih =>
    intro i b store
    simp only [batchLoop]
    rcases batchStep_spec env n i jobId b store with ⟨hres, hdel⟩
    rcases ih (i + 1) (batchStep env n i jobId b store).1
      (batchStep env n i jobId b store).2.1 with ⟨hres', hdel'⟩
    constructor
    · rw [hres', hres]
      simp
    · rw [hdel', hdel]
      simp

theorem processBatch_spec (env : BatchEnv) (userId : String)
    (jobIds : List String) (store0 : List (String × BatchRec)) :
    (processBatchApplications env userId jobIds store0).1.results
        = jobIds.map (iterResult env) ∧
    (processBatchApplications env userId jobIds store0).2.2
        = jobIds.map (jobAttempted env) := by
  obtain ⟨hres, hdel⟩ := batchLoop_spec env jobIds.length jobIds 0
    ({ id := env.gen 1, userId := userId, jobIds := jobIds, status := "processing",
       progress := 0, results := [], startTime := env.clock, endTime := none })
    (saveBatchStatus store0
      { id := env.gen 1, userId := userId, jobIds := jobIds, status := "processing",
        progress := 0, results := [], startTime := env.clock, endTime := none })
  exact ⟨by simpa using hres, hdel⟩

/-- A demo environment in which no job id resolves to a job record. -/
def envNoJobs : BatchEnv :=
  { findJob := fun _ => none, hasCreds := fun _ => false,
    runJob := fun _ => .adapterDone false none,
    newApplicationId := fun j => j,
    gen := fun n => if n == 0 then "id0" else "id1",
    clock := 0 }

/-- A demo environment in which every job exists, credentials are present
and the application attempt succeeds. -/
def envAllOk : BatchEnv :=
  { findJob := fun jid => some ⟨jid, "Dev", ⟨"Acme"⟩, "https://example.com/a", none⟩,
    hasCreds := fun _ => true,
    runJob := fun _ => .adapterDone true none,
    newApplicationId := fun j => j,
    gen := fun n => if n == 0 then "id0" else "id1",
    clock := 0 }

/-- C2, evaluated at the failing input: a one-job batch whose job is not
found. The loop pushes the failed result and the final status is
completed, as the claim says, but the continue statement of the not-found
branch skips the progress recomputation, so the completed batch reports
progress 0, not 100. -/
theorem C2_progress_stuck_on_skipped_last_job :
    (processBatchApplications envNoJobs "u" ["j1"] []).1.results
        = [{ jobId := "j1", success := false, error := some "Job not found" }] ∧
    (processBatchApplications envNoJobs "u" ["j1"] []).1.status = "completed" ∧
    (processBatchApplications envNoJobs "u" ["j1"] []).1.progress = 0 ∧
    (processBatchApplications envNoJobs "u" ["j1"] []).1.progress ≠ 100 := by
  decide

/-- C3, evaluated: the id returned to the caller is the first
generateBatchId result, but the batch record is stored under a second,
independently generated id; looking up the returned id yields nothing,
while the record sits in the store under the other id. -/
theorem C3_returned_batch_id_dangling :
    (routeBatchApply envNoJobs "u" ["j1"]).1 = "id0" ∧
    getBatchStatus (routeBatchApply envNoJobs "u" ["j1"]).2.2.1 "id0" = none ∧
    getBatchStatus (routeBatchApply envNoJobs "u" ["j1"]).2.2.1 "id1"
      = some (routeBatchApply envNoJobs "u" ["j1"]).2.1 := by
  decide

/-- Counterexample to C4 as stated: a one-job batch whose job is not found
records a failed result for the job, yet performs no inter-job delay for
it (the continue statement skips the delay). -/
theorem C4_counterexample :
    (processBatchApplications envNoJobs "u" ["j1"] []).1.results.length = 1 ∧
    ((processBatchApplications envNoJobs "u" ["j1"] []).1.results[0]?).map
        (fun r => r.success) = some false ∧
    (processBatchApplications envNoJobs "u" ["j1"] []).2.2 = [false] := by
  decide

/-- C4 (amended): the fixed inter-job delay is performed after exactly the
jobs whose iteration reaches the application attempt — the job is found
and portal credentials exist; adapter failures and thrown exceptions still
delay, while the two early-continue failures (job not found, missing
credentials) skip the delay. -/
theorem C4_delay_only_after_attempts (env : BatchEnv) (userId : String)
    (jobIds : List String) (store0 : List (String × BatchRec)) :
    (processBatchApplications env userId jobIds store0).2.2
        = jobIds.map (jobAttempted env) ∧
    ∀ (i : Nat) (jobId : String), jobIds[i]? = some jobId →
      ((processBatchApplications env userId jobIds store0).2.2[i]? = some true ↔
        ∃ job, env.findJob jobId = some job ∧
          env.hasCreds (determinePortal job.applicationUrl.toList) = true) := by
  have h := (processBatch_spec env userId jobIds store0).2
  refine ⟨h, fun i jobId hi => ?_⟩
  rw [h, List.getElem?_map, hi]
  simp only [Option.map_some']
  unfold jobAttempted
  cases hf : env.findJob jobId with
  | none => simp [hf]
  | some job => simp [hf]

/-- Witness for C4 on a one-job batch in an environment where the job
exists and credentials are present. -/
theorem C4_delay_only_after_attempts_witness :
    (processBatchApplications envAllOk "u" ["j1"] []).2.2
        = ["j1"].map (jobAttempted envAllOk) ∧
    ((processBatchApplications envAllOk "u" ["j1"] []).2.2[0]? = some true ↔
      ∃ job, envAllOk.findJob "j1" = some job ∧
        envAllOk.hasCreds (determinePortal job.applicationUrl.toList) = true) :=
  ⟨(C4_delay_only_after_attempts envAllOk "u" ["j1"] []).1,
   (C4_delay_only_after_attempts envAllOk "u" ["j1"] []).2 0 "j1" rfl⟩

theorem iterResult_jobId (env : BatchEnv) (jobId : String) :
    (iterResult env jobId).jobId = jobId := by
  unfold iterResult
  cases env.findJob jobId with
  | none => rfl
  | some job =>
    by_cases hc : env.hasCreds (determinePortal job.applicationUrl.toList)
    · simp only [hc, if_true]
      cases env.runJob jobId with
      | adapterDone success err => cases success <;> rfl
      | iterThrown msg => rfl
    · simp only [Bool.not_eq_true] at hc
      simp only [hc]
      simp

theorem iterResult_shape (env : BatchEnv) (jobId : String) :
    (iterResult env jobId).company = none ∧
    (iterResult env jobId).title = none ∧
    (iterResult env jobId).applicationUrl = none ∧
    (iterResult env jobId).timestamp = none ∧
    ((iterResult env jobId).success = true →
      (iterResult env jobId).applicationId.isSome = true) := by
  unfold iterResult
  cases env.findJob jobId with
  | none => exact ⟨rfl, rfl, rfl, rfl, fun h => by simp at h⟩
  | some job =>
    by_cases hc : env.hasCreds (determinePortal job.applicationUrl.toList)
    · simp only [hc, if_true]
      cases env.runJob jobId with
      | adapterDone success err =>
        cases success
        · exact ⟨rfl, rfl, rfl, rfl, fun h => by simp at h⟩
        · exact ⟨rfl, rfl, rfl, rfl, fun _ => rfl⟩
      | iterThrown msg => exact ⟨rfl, rfl, rfl, rfl, fun h => by simp at h⟩
    · simp only [Bool.not_eq_true] at hc
      simp only [hc]
      simp

/-- Counterexample to C9 as stated: the result recorded in
BatchState.results for a not-found job carries only jobId, success and
error; the company, title, applicationUrl and timestamp fields the claim
requires are absent. -/
theorem C9_counterexample :
    (processBatchApplications envNoJobs "u" ["j1"] []).1.results[0]?
        = some { jobId := "j1", success := false, error := some "Job not found" } ∧
    ((processBatchApplications envNoJobs "u" ["j1"] []).1.results[0]?).map
        (fun r => (r.company, r.title, r.applicationUrl, r.timestamp))
      = some (none, none, none, none) := by
  decide

/-- C9 (amended): a result returned by applyToJob once the adapter dispatch
is reached is complete — jobId, success, company, title, applicationUrl
and timestamp are present, the error field carries a thrown exception's
message — and is appended once to applicationResults; a result appended to
BatchState.results carries only jobId and success together with error on
failure or applicationId on success (company, title, applicationUrl and
timestamp are absent), one result per job in input order, and the results
list only grows by appending. -/
theorem C9_result_shapes (browserLive initOk : Bool) (outcome : AdapterOutcome)
    (now : Int) (job : Job) (results : List AppResult)
    (env : BatchEnv) (userId : String) (jobIds : List String)
    (store0 : List (String × BatchRec))
    (hdispatch : browserLive = true ∨ initOk = true) :
    ((applyToJob browserLive initOk outcome now job results).1.company.isSome = true ∧
     (applyToJob browserLive initOk outcome now job results).1.title.isSome = true ∧
     (applyToJob browserLive initOk outcome now job
        results).1.applicationUrl.isSome = true ∧
     (applyToJob browserLive initOk outcome now job
        results).1.timestamp.isSome = true ∧
     (∀ msg, outcome = .thrown msg →
       (applyToJob browserLive initOk outcome now job results).1.error = some msg) ∧
     (applyToJob browserLive initOk outcome now job results).2
       = results ++ [(applyToJob browserLive initOk outcome now job results).1]) ∧
    ((processBatchApplications env userId jobIds store0).1.results
        = jobIds.map (iterResult env) ∧
     (processBatchApplications env userId jobIds store0).1.results.length
        = jobIds.length ∧
     (∀ i : Nat,
       ((processBatchApplications env userId jobIds store0).1.results[i]?).map
          (fun r => r.jobId) = jobIds[i]?) ∧
     ∀ r ∈ (processBatchApplications env userId jobIds store0).1.results,
       r.company = none ∧ r.title = none ∧ r.applicationUrl = none ∧
       r.timestamp = none ∧ (r.success = true → r.applicationId.isSome = true)) := by
  have hcond : (!browserLive && !initOk) = false := by
    rcases hdispatch with rfl | rfl
    · rfl
    · cases browserLive <;> rfl
  constructor
  · unfold applyToJob
    rw [if_neg (by rw [hcond]; exact Bool.false_ne_true)]
    cases outcome with
    | finished success =>
      refine ⟨rfl, rfl, rfl, rfl, fun msg h => ?_, rfl⟩
      exact AdapterOutcome.noConfusion h
    | thrown msg' =>
      refine ⟨rfl, rfl, rfl, rfl, fun msg h => ?_, rfl⟩
      injection h with h'
      subst h'
      rfl
  · obtain ⟨hres, _⟩ := processBatch_spec env userId jobIds store0
    refine ⟨hres, ?_, ?_, ?_⟩
    · rw [hres]; simp
    · intro i
      rw [hres, List.getElem?_map]
      cases hi : jobIds[i]? with
      | none => rfl
      | some jid => simp [iterResult_jobId]
    · intro r hr
      rw [hres] at hr
      rcases List.mem_map.mp hr with ⟨jid, _, rfl⟩
      exact iterResult_shape env jid

/-- Witness for C9 on a concrete successful application and a concrete
one-job batch. -/
theorem C9_result_shapes_witness :
    (applyToJob true true (.finished true) 0 ⟨"j1", "Dev", ⟨"Acme"⟩, "u", none⟩
        []).1.company.isSome = true ∧
    (processBatchApplications envAllOk "u" ["j1"] []).1.results
      = ["j1"].map (iterResult envAllOk) :=
  ⟨(C9_result_shapes true true (.finished true) 0 ⟨"j1", "Dev", ⟨"Acme"⟩, "u", none⟩
      [] envAllOk "u" ["j1"] [] (Or.inl rfl)).1.1,
   (C9_result_shapes true true (.finished true) 0 ⟨"j1", "Dev", ⟨"Acme"⟩, "u", none⟩
      [] envAllOk "u" ["j1"] [] (Or.inl rfl)).2.1⟩
